import Mathlib

/-!
Verification of the beacon-rewards service core against its source.

The Go source is shallowly embedded: machine integers become `Nat`/`Int`
with explicit `% 2 ^ 64` where overflow is part of the behaviour,
`big.Int` values become `Nat`/`Int`, byte slices become `List Nat`
(big-endian base-256 digits), `float64` arithmetic is modelled over `ℚ`,
Go maps become functions into `Option`, and fallible code returns
`Except`.
-/

namespace BeaconRewards

/-! ## Epoch clock (internal/utils, `part_008`)

`TimeToEpoch` / `EpochToTime` from the utils package.  Times are Unix
seconds modelled as `Int` (the `int64` arithmetic never overflows for
realistic timestamps and epochs), epochs as `Nat`.
-/

/-- `SECONDS_PER_SLOT` from the source. -/
def SECONDS_PER_SLOT : Nat := 12

/-- `SLOTS_PER_EPOCH` from the source. -/
def SLOTS_PER_EPOCH : Nat := 32

/-- `SECONDS_PER_EPOCH` from the source. -/
def SECONDS_PER_EPOCH : Nat := SECONDS_PER_SLOT * SLOTS_PER_EPOCH

/-- `DefaultGenesisTimestamp` from the source. -/
def DefaultGenesisTimestamp : Int := 1709532000

/-- `TimeToEpoch` from the source: `0` when the timestamp precedes the
genesis, otherwise `(ts - genesis) / 12 / 32` with integer division
(nonnegative here, so truncated and floored division agree). -/
def TimeToEpoch (genesis ts : Int) : Nat :=
  if genesis > ts then 0
  else ((ts - genesis).toNat / SECONDS_PER_SLOT) / SLOTS_PER_EPOCH

/-- `EpochToTime` from the source: `genesis + (epoch + 1) * 384`. -/
def EpochToTime (genesis : Int) (epoch : Nat) : Int :=
  genesis + ((epoch : Int) + 1) * (SECONDS_PER_EPOCH : Int)

/-! ## Epoch storage conversion (internal/dora/db.go) -/

/-- `epochShift` from the source: `uint64(1) << 63`. -/
def epochShift : Nat := 2 ^ 63

/-- `epochOffset` from the source: `-1 << 63`. -/
def epochOffset : Int := -(2 ^ 63)

/-- `convertUint64EpochToStorage` from the source.  A `uint64` epoch is
mapped to the signed storage column: epochs `≥ 2^63` become the
nonnegative `int64` `epoch - 2^63`; smaller epochs become
`int64(epoch) + (-2^63)` (no wrap occurs in either branch). -/
def convertUint64EpochToStorage (epoch : Nat) : Int :=
  if epoch ≥ epochShift then ((epoch - epochShift : Nat) : Int)
  else (epoch : Int) + epochOffset

/-- `ConvertInt64ToUint64` from the source: `uint64(i) + epochShift` with
wrapping `uint64` addition.  The Go conversion `uint64(i)` of an `int64`
is its value modulo `2^64`. -/
def ConvertInt64ToUint64 (i : Int) : Nat :=
  ((i % (2 ^ 64 : Int)).toNat + epochShift) % 2 ^ 64

/-! ## Theorems: C1, C5 -/

/-- C1 counterexample: at the default genesis and epoch `0`, the code's
round trip gives `TimeToEpoch (EpochToTime 0) = 1`, not `0` as claimed. -/
theorem epoch_roundtrip_claim_false :
    TimeToEpoch DefaultGenesisTimestamp (EpochToTime DefaultGenesisTimestamp 0) = 1 := by
  decide

/-- C1 (amended): for every genesis timestamp and every epoch, composing
the epoch-clock conversions advances by one: since `EpochToTime e` is the
*end* of epoch `e` (the start of epoch `e + 1`),
`TimeToEpoch (EpochToTime e) = e + 1` exactly. -/
theorem epoch_roundtrip_succ (genesis : Int) (epoch : Nat) :
    TimeToEpoch genesis (EpochToTime genesis epoch) = epoch + 1 := by
  unfold TimeToEpoch EpochToTime SECONDS_PER_EPOCH SECONDS_PER_SLOT SLOTS_PER_EPOCH
  have hle : ¬ genesis > genesis + ((epoch : Int) + 1) * (12 * 32 : Nat) := by
    push_cast
    nlinarith [Int.natCast_nonneg epoch]
  rw [if_neg hle]
  have hsub : genesis + ((epoch : Int) + 1) * ((12 * 32 : Nat) : Int) - genesis
      = ((epoch + 1) * 384 : Nat) := by push_cast; ring
  rw [hsub, Int.toNat_natCast]
  omega

/-- C1 witness: the amended round trip evaluated at the default genesis
and epoch `41`. -/
theorem epoch_roundtrip_succ_witness :
    TimeToEpoch DefaultGenesisTimestamp (EpochToTime DefaultGenesisTimestamp 41) = 42 :=
  epoch_roundtrip_succ DefaultGenesisTimestamp 41

/-- C5: for every `uint64` epoch, converting to the store's signed 64-bit
representation (the `-2^63` shift) and back (the `+2^63` wrapping shift)
returns exactly the original epoch, over the whole `uint64` range. -/
theorem epoch_storage_roundtrip (epoch : Nat) (h : epoch < 2 ^ 64) :
    ConvertInt64ToUint64 (convertUint64EpochToStorage epoch) = epoch := by
  unfold ConvertInt64ToUint64 convertUint64EpochToStorage epochShift epochOffset
  by_cases hc : epoch ≥ 2 ^ 63
  · rw [if_pos hc]
    omega
  · rw [if_neg hc]
    omega

/-- C5 witness: the storage round trip evaluated at `0`, `2^63` and
`2^64 - 1`. -/
theorem epoch_storage_roundtrip_witness :
    ConvertInt64ToUint64 (convertUint64EpochToStorage 0) = 0 ∧
    ConvertInt64ToUint64 (convertUint64EpochToStorage (2 ^ 63)) = 2 ^ 63 ∧
    ConvertInt64ToUint64 (convertUint64EpochToStorage (2 ^ 64 - 1)) = 2 ^ 64 - 1 :=
  ⟨epoch_storage_roundtrip 0 (by norm_num),
   epoch_storage_roundtrip (2 ^ 63) (by norm_num),
   epoch_storage_roundtrip (2 ^ 64 - 1) (by norm_num)⟩

/-! ## Wei byte sequences (internal/utils, math/big)

`TxFeeRewardWei` is a big-endian byte slice interpreted by
`big.Int.SetBytes` and produced by `big.Int.Bytes` (canonical: no leading
zero bytes, zero is the empty slice).  Byte slices are modelled as
`List Nat` of base-256 digits.
-/

/-- Little-endian digit value: models the numeric value of reversed
big-endian bytes. -/
def bytesToNatLE : List Nat → Nat
  | [] => 0
  | b :: rest => b + 256 * bytesToNatLE rest

/-- `big.Int.SetBytes`: value of a big-endian byte slice. -/
def bytesToNat (l : List Nat) : Nat := bytesToNatLE l.reverse

/-- Fuel-indexed little-endian digit expansion (structural recursion so
the kernel can evaluate it; `fuel ≥ n` suffices). -/
def natToBytesLEAux : Nat → Nat → List Nat
  | _, 0 => []
  | 0, _ + 1 => []
  | fuel + 1, n + 1 => ((n + 1) % 256) :: natToBytesLEAux fuel ((n + 1) / 256)

/-- Little-endian digits of `n`, no trailing zero digit. -/
def natToBytesLE (n : Nat) : List Nat := natToBytesLEAux n n

/-- `big.Int.Bytes`: canonical big-endian byte slice of `n` (empty for
zero, no leading zero bytes). -/
def natToBytes (n : Nat) : List Nat := (natToBytesLE n).reverse

theorem natToBytesLEAux_fuel_irrel :
    ∀ f₁ f₂ n, n ≤ f₁ → n ≤ f₂ → natToBytesLEAux f₁ n = natToBytesLEAux f₂ n := by
  intro f₁
  induction f₁ with
  | zero =>
    intro f₂ n h₁ _
    interval_cases n
    cases f₂ <;> rfl
  | succ f ih =>
    intro f₂ n h₁ h₂
    match n, f₂ with
    | 0, f₂ => cases f₂ <;> rfl
    | n + 1, 0 => omega
    | n + 1, f₂ + 1 =>
      show ((n + 1) % 256) :: natToBytesLEAux f ((n + 1) / 256)
          = ((n + 1) % 256) :: natToBytesLEAux f₂ ((n + 1) / 256)
      have hd : (n + 1) / 256 ≤ f := by omega
      have hd₂ : (n + 1) / 256 ≤ f₂ := by omega
      rw [ih f₂ _ hd hd₂]

theorem bytesToNatLE_natToBytesLEAux :
    ∀ fuel n, n ≤ fuel → bytesToNatLE (natToBytesLEAux fuel n) = n := by
  intro fuel
  induction fuel with
  | zero =>
    intro n h
    interval_cases n
    rfl
  | succ f ih =>
    intro n h
    match n with
    | 0 => rfl
    | n + 1 =>
      show bytesToNatLE (((n + 1) % 256) :: natToBytesLEAux f ((n + 1) / 256)) = n + 1
      have hd : (n + 1) / 256 ≤ f := by omega
      show (n + 1) % 256 + 256 * bytesToNatLE (natToBytesLEAux f ((n + 1) / 256)) = n + 1
      rw [ih _ hd]
      omega

/-- Round trip: decoding the canonical encoding recovers the value. -/
theorem bytesToNat_natToBytes (n : Nat) : bytesToNat (natToBytes n) = n := by
  unfold bytesToNat natToBytes
  rw [List.reverse_reverse]
  exact bytesToNatLE_natToBytesLEAux n n le_rfl

/-! ## Validator epoch income and accumulation (internal/rewards/service.go) -/

/-- Wrapping `uint64` addition. -/
def u64add (a b : Nat) : Nat := (a + b) % 2 ^ 64

/-- `types.ValidatorEpochIncome`: the per-validator income record.  All
counters are `uint64` (modelled as `Nat`); `txFeeRewardWei` is the
big-endian wei byte slice. -/
structure ValidatorEpochIncome where
  attestationSourceReward : Nat := 0
  attestationSourcePenalty : Nat := 0
  attestationTargetReward : Nat := 0
  attestationTargetPenalty : Nat := 0
  attestationHeadReward : Nat := 0
  finalityDelayPenalty : Nat := 0
  proposerSlashingInclusionReward : Nat := 0
  proposerAttestationInclusionReward : Nat := 0
  proposerSyncInclusionReward : Nat := 0
  syncCommitteeReward : Nat := 0
  syncCommitteePenalty : Nat := 0
  slashingReward : Nat := 0
  slashingPenalty : Nat := 0
  txFeeRewardWei : List Nat := []
  proposalsMissed : Nat := 0
  deriving DecidableEq, Repr

/-- The `!exists` branch of `Service.accumulateRewards`: the first
occurrence allocates a copy of the record, field by field. -/
def copyIncome (income : ValidatorEpochIncome) : ValidatorEpochIncome :=
  { attestationSourceReward := income.attestationSourceReward
    attestationSourcePenalty := income.attestationSourcePenalty
    attestationTargetReward := income.attestationTargetReward
    attestationTargetPenalty := income.attestationTargetPenalty
    attestationHeadReward := income.attestationHeadReward
    finalityDelayPenalty := income.finalityDelayPenalty
    proposerSlashingInclusionReward := income.proposerSlashingInclusionReward
    proposerAttestationInclusionReward := income.proposerAttestationInclusionReward
    proposerSyncInclusionReward := income.proposerSyncInclusionReward
    syncCommitteeReward := income.syncCommitteeReward
    syncCommitteePenalty := income.syncCommitteePenalty
    slashingReward := income.slashingReward
    slashingPenalty := income.slashingPenalty
    txFeeRewardWei := income.txFeeRewardWei
    proposalsMissed := income.proposalsMissed }

/-- The `exists` branch of `Service.accumulateRewards`: field-wise `uint64`
addition; the wei field is big-integer addition of the byte slices,
skipped when the incoming slice is empty. -/
def addIncome (existing income : ValidatorEpochIncome) : ValidatorEpochIncome :=
  { attestationSourceReward := u64add existing.attestationSourceReward income.attestationSourceReward
    attestationSourcePenalty := u64add existing.attestationSourcePenalty income.attestationSourcePenalty
    attestationTargetReward := u64add existing.attestationTargetReward income.attestationTargetReward
    attestationTargetPenalty := u64add existing.attestationTargetPenalty income.attestationTargetPenalty
    attestationHeadReward := u64add existing.attestationHeadReward income.attestationHeadReward
    finalityDelayPenalty := u64add existing.finalityDelayPenalty income.finalityDelayPenalty
    proposerSlashingInclusionReward :=
      u64add existing.proposerSlashingInclusionReward income.proposerSlashingInclusionReward
    proposerAttestationInclusionReward :=
      u64add existing.proposerAttestationInclusionReward income.proposerAttestationInclusionReward
    proposerSyncInclusionReward :=
      u64add existing.proposerSyncInclusionReward income.proposerSyncInclusionReward
    syncCommitteeReward := u64add existing.syncCommitteeReward income.syncCommitteeReward
    syncCommitteePenalty := u64add existing.syncCommitteePenalty income.syncCommitteePenalty
    slashingReward := u64add existing.slashingReward income.slashingReward
    slashingPenalty := u64add existing.slashingPenalty income.slashingPenalty
    txFeeRewardWei :=
      if 0 < income.txFeeRewardWei.length then
        natToBytes (bytesToNat existing.txFeeRewardWei + bytesToNat income.txFeeRewardWei)
      else existing.txFeeRewardWei
    proposalsMissed := u64add existing.proposalsMissed income.proposalsMissed }

/-- `Service.accumulateRewards` restricted to a single validator's cache
slot: `none` means the validator has no entry yet. -/
def accumulateRewards (existing : Option ValidatorEpochIncome)
    (income : ValidatorEpochIncome) : ValidatorEpochIncome :=
  match existing with
  | none => copyIncome income
  | some e => addIncome e income

/-- Accumulating a list of epoch-income records for one validator into an
initially absent cache entry, in list order. -/
def accumulateList (l : List ValidatorEpochIncome) : Option ValidatorEpochIncome :=
  l.foldl (fun acc income => some (accumulateRewards acc income)) none

/-- A record is canonical when its wei bytes are the canonical encoding of
their value — true of every record the epoch fetcher produces, since those
bytes come from `big.Int.Bytes`. -/
def canonicalWei (income : ValidatorEpochIncome) : Prop :=
  income.txFeeRewardWei = natToBytes (bytesToNat income.txFeeRewardWei)

instance (income : ValidatorEpochIncome) : Decidable (canonicalWei income) := by
  unfold canonicalWei; infer_instance

theorem copyIncome_eq (income : ValidatorEpochIncome) : copyIncome income = income := rfl

theorem not_pos_length_eq_nil {l : List Nat} (h : ¬ 0 < l.length) : l = [] := by
  cases l with
  | nil => rfl
  | cons a t => simp at h

theorem addIncome_right_comm (a x y : ValidatorEpochIncome) :
    addIncome (addIncome a x) y = addIncome (addIncome a y) x := by
  unfold addIncome u64add
  simp only [ValidatorEpochIncome.mk.injEq]
  repeat' apply And.intro
  all_goals try omega
  by_cases hx : 0 < x.txFeeRewardWei.length <;> by_cases hy : 0 < y.txFeeRewardWei.length
  · simp only [if_pos hx, if_pos hy, bytesToNat_natToBytes]
    congr 1
    omega
  · simp only [if_pos hx, if_neg hy]
  · simp only [if_pos hy, if_neg hx]
  · simp only [if_neg hx, if_neg hy]

theorem addIncome_comm (x y : ValidatorEpochIncome)
    (hx : canonicalWei x) (hy : canonicalWei y) :
    addIncome x y = addIncome y x := by
  unfold addIncome u64add
  simp only [ValidatorEpochIncome.mk.injEq]
  repeat' apply And.intro
  all_goals try omega
  by_cases hx0 : 0 < x.txFeeRewardWei.length <;> by_cases hy0 : 0 < y.txFeeRewardWei.length
  · simp only [if_pos hx0, if_pos hy0]
    congr 1
    omega
  · rw [if_neg hy0, if_pos hx0, not_pos_length_eq_nil hy0]
    simp only [show bytesToNat [] = 0 from rfl, Nat.zero_add]
    exact hx
  · rw [if_pos hy0, if_neg hx0, not_pos_length_eq_nil hx0]
    simp only [show bytesToNat [] = 0 from rfl, Nat.zero_add]
    exact hy.symm
  · rw [if_neg hy0, if_neg hx0, not_pos_length_eq_nil hx0, not_pos_length_eq_nil hy0]

theorem accumulate_step_comm (acc : Option ValidatorEpochIncome)
    (x y : ValidatorEpochIncome) (hx : canonicalWei x) (hy : canonicalWei y) :
    some (accumulateRewards (some (accumulateRewards acc x)) y)
      = some (accumulateRewards (some (accumulateRewards acc y)) x) := by
  cases acc with
  | none =>
    show some (addIncome (copyIncome x) y) = some (addIncome (copyIncome y) x)
    rw [copyIncome_eq, copyIncome_eq, addIncome_comm x y hx hy]
  | some a =>
    show some (addIncome (addIncome a x) y) = some (addIncome (addIncome a y) x)
    rw [addIncome_right_comm]

theorem foldl_accumulate_perm {l₁ l₂ : List ValidatorEpochIncome} (hp : l₁.Perm l₂) :
    (∀ r ∈ l₁, canonicalWei r) → ∀ acc : Option ValidatorEpochIncome,
      List.foldl (fun acc income => some (accumulateRewards acc income)) acc l₁
        = List.foldl (fun acc income => some (accumulateRewards acc income)) acc l₂ := by
  induction hp with
  | nil => intro _ acc; rfl
  | cons x h ih =>
    intro hc acc
    simp only [List.foldl_cons]
    exact ih (fun r hr => hc r (List.mem_cons_of_mem _ hr)) _
  | swap x y l =>
    intro hc acc
    simp only [List.foldl_cons]
    have hx : canonicalWei x := hc x (by simp)
    have hy : canonicalWei y := hc y (by simp)
    rw [show (some (accumulateRewards (some (accumulateRewards acc y)) x) : Option _)
        = some (accumulateRewards (some (accumulateRewards acc x)) y) from
      accumulate_step_comm acc y x hy hx]
  | trans h₁ h₂ ih₁ ih₂ =>
    intro hc acc
    rw [ih₁ hc acc, ih₂ (fun r hr => hc r (h₁.mem_iff.mpr hr)) acc]

/-- C2: (i) for any two orderings of the same finite multiset of
per-epoch income records for one validator — each with canonical wei bytes,
as every record produced by the epoch fetcher has (its wei bytes come from
`big.Int.Bytes`) — accumulating them into the cache slot yields identical
entries in every field, including the big-integer EL wei sum; (ii)
accumulating a record with an empty EL wei byte sequence into an existing
entry leaves the EL wei field unchanged. -/
theorem accumulation_commutative :
    (∀ l₁ l₂ : List ValidatorEpochIncome, l₁.Perm l₂ →
      (∀ r ∈ l₁, canonicalWei r) → accumulateList l₁ = accumulateList l₂) ∧
    (∀ existing income : ValidatorEpochIncome, income.txFeeRewardWei = [] →
      (addIncome existing income).txFeeRewardWei = existing.txFeeRewardWei) := by
  constructor
  · intro l₁ l₂ hp hc
    exact foldl_accumulate_perm hp hc none
  · intro existing income h
    show (if 0 < income.txFeeRewardWei.length then _ else _) = _
    rw [h]
    simp

/-- C2 witness: two concrete permutations of three records accumulate to
the same entry, and an empty wei delta is a no-op on the wei field. -/
theorem accumulation_commutative_witness :
    accumulateList
        [{ attestationHeadReward := 3, txFeeRewardWei := [1, 7] },
         { syncCommitteePenalty := 2 },
         { attestationHeadReward := 1, txFeeRewardWei := [255] }]
      = accumulateList
        [{ attestationHeadReward := 1, txFeeRewardWei := [255] },
         { attestationHeadReward := 3, txFeeRewardWei := [1, 7] },
         { syncCommitteePenalty := 2 }] ∧
    (addIncome { slashingReward := 9, txFeeRewardWei := [2, 0] } { }).txFeeRewardWei
      = [2, 0] :=
  ⟨accumulation_commutative.1 _ _ (by decide) (by decide),
   accumulation_commutative.2 { slashingReward := 9, txFeeRewardWei := [2, 0] } { } rfl⟩

/-! ## Per-validator rewards aggregation (`Service.GetTotalRewards`) -/

/-- `ValidatorReward` from the source.  The gwei quantities are computed
with `big.Int` arithmetic, modelled as `Int`. -/
structure ValidatorReward where
  validatorIndex : Nat
  clRewardsGwei : Int
  elRewardsGwei : Int
  totalRewardsGwei : Int
  deriving DecidableEq, Repr

/-- `gweiDivisor` (and `gweiToWei`) from the source: `10^9`. -/
def gweiDivisor : Int := 1000000000

/-- `Service.GetTotalRewards` from the source, for a cache restricted to
one read.  `totalClRewards` is the library function
`ValidatorEpochIncome.TotalClRewards` (external to this repository),
passed abstractly; the cache is the map `validator index → entry`; the
result map is built by iterating the requested indices.  `big.Int.Div`
implements Euclidean division, hence Euclidean division, which is `Int` division `/` in Lean. -/
def GetTotalRewards (totalClRewards : ValidatorEpochIncome → Int)
    (cache : Nat → Option ValidatorEpochIncome) (validatorIndices : List Nat) :
    Nat → Option ValidatorReward :=
  validatorIndices.foldl
    (fun result index =>
      match cache index with
      | none => result
      | some income =>
        let clRewardsGwei := totalClRewards income
        let elRewardsWei : Int := (bytesToNat income.txFeeRewardWei : Int)
        let elRewardsGwei := elRewardsWei / gweiDivisor
        let totalRewardsWei := clRewardsGwei * gweiDivisor + elRewardsWei
        let totalRewardsGwei := totalRewardsWei / gweiDivisor
        fun j =>
          if j = index then
            some { validatorIndex := index, clRewardsGwei := clRewardsGwei,
                   elRewardsGwei := elRewardsGwei, totalRewardsGwei := totalRewardsGwei }
          else result j)
    (fun _ => none)

/-- The record `GetTotalRewards` stores for a cached index. -/
def mkValidatorReward (totalClRewards : ValidatorEpochIncome → Int)
    (index : Nat) (income : ValidatorEpochIncome) : ValidatorReward :=
  { validatorIndex := index
    clRewardsGwei := totalClRewards income
    elRewardsGwei := ((bytesToNat income.txFeeRewardWei : Nat) : Int) / gweiDivisor
    totalRewardsGwei :=
      (totalClRewards income * gweiDivisor + ((bytesToNat income.txFeeRewardWei : Nat) : Int))
        / gweiDivisor }

theorem GetTotalRewards_foldl_lookup (totalClRewards : ValidatorEpochIncome → Int)
    (cache : Nat → Option ValidatorEpochIncome) :
    ∀ (idxs : List Nat) (acc : Nat → Option ValidatorReward) (i : Nat),
      (idxs.foldl
        (fun result index =>
          match cache index with
          | none => result
          | some income =>
            let clRewardsGwei := totalClRewards income
            let elRewardsWei : Int := (bytesToNat income.txFeeRewardWei : Int)
            let elRewardsGwei := elRewardsWei / gweiDivisor
            let totalRewardsWei := clRewardsGwei * gweiDivisor + elRewardsWei
            let totalRewardsGwei := totalRewardsWei / gweiDivisor
            fun j =>
              if j = index then
                some { validatorIndex := index, clRewardsGwei := clRewardsGwei,
                       elRewardsGwei := elRewardsGwei, totalRewardsGwei := totalRewardsGwei }
              else result j) acc) i
        = if i ∈ idxs ∧ (cache i).isSome then
            (cache i).map (mkValidatorReward totalClRewards i)
          else acc i := by
  intro idxs
  induction idxs with
  | nil => intro acc i; simp
  | cons x rest ih =>
    intro acc i
    simp only [List.foldl_cons]
    rw [ih]
    by_cases hmem : i ∈ rest ∧ (cache i).isSome
    · rw [if_pos hmem, if_pos ⟨List.mem_cons_of_mem x hmem.1, hmem.2⟩]
    · rw [if_neg hmem]
      by_cases hix : i = x
      · subst hix
        cases hc : cache i with
        | none => simp [hc]
        | some income => simp [hc, mkValidatorReward]
      · have hcond : ¬ (i ∈ x :: rest ∧ (cache i).isSome) := by
          intro hpair
          rcases List.mem_cons.mp hpair.1 with h | h
          · exact hix h
          · exact hmem ⟨h, hpair.2⟩
        cases hc : cache x with
        | none =>
          simp only [hc]
          rw [if_neg hcond]
        | some income =>
          simp only [hc]
          rw [if_neg hcond]
          exact if_neg hix

/-- C8: the per-validator rewards aggregator returns a record exactly for
the requested indices that have a cache entry — with
`cl_gwei = TotalClRewards entry`, `el_gwei = ⌊wei / 10^9⌋`, and
`total_gwei = cl_gwei + el_gwei` (the code's route
`(cl_gwei·10^9 + wei) div 10^9` with floor division equals the sum) — and
omits the indices absent from the cache. -/
theorem getTotalRewards_correct (totalClRewards : ValidatorEpochIncome → Int)
    (cache : Nat → Option ValidatorEpochIncome) (validatorIndices : List Nat) (i : Nat) :
    (∀ income, i ∈ validatorIndices → cache i = some income →
      GetTotalRewards totalClRewards cache validatorIndices i
        = some { validatorIndex := i
                 clRewardsGwei := totalClRewards income
                 elRewardsGwei := ((bytesToNat income.txFeeRewardWei / 10 ^ 9 : Nat) : Int)
                 totalRewardsGwei :=
                   totalClRewards income + ((bytesToNat income.txFeeRewardWei / 10 ^ 9 : Nat) : Int) }) ∧
    ((i ∉ validatorIndices ∨ cache i = none) →
      GetTotalRewards totalClRewards cache validatorIndices i = none) := by
  constructor
  · intro income hmem hc
    unfold GetTotalRewards
    rw [GetTotalRewards_foldl_lookup, if_pos ⟨hmem, by simp [hc]⟩, hc]
    have hwei : ((bytesToNat income.txFeeRewardWei : Nat) : Int) / gweiDivisor
        = ((bytesToNat income.txFeeRewardWei / 10 ^ 9 : Nat) : Int) := by
      simp only [gweiDivisor]
      omega
    have htot :
        (totalClRewards income * gweiDivisor + ((bytesToNat income.txFeeRewardWei : Nat) : Int))
          / gweiDivisor
        = totalClRewards income + ((bytesToNat income.txFeeRewardWei / 10 ^ 9 : Nat) : Int) := by
      simp only [gweiDivisor]
      omega
    show some (mkValidatorReward totalClRewards i income) = _
    unfold mkValidatorReward
    rw [hwei, htot]
  · intro h
    unfold GetTotalRewards
    rw [GetTotalRewards_foldl_lookup]
    rcases h with h | h
    · rw [if_neg (fun hx => h hx.1)]
    · rw [if_neg (fun hx => by rw [h] at hx; simp at hx)]

/-- C8 witness: a two-entry cache queried for indices `[5, 9, 5]` — index
`5` cached with CL `−3` gwei and wei bytes `[5, 0, 0, 0, 0]`
(5·2^32 wei), index `9` absent. -/
theorem getTotalRewards_correct_witness :
    GetTotalRewards (fun _ => (-3 : Int))
        (fun j => if j = 5 then some { txFeeRewardWei := [5, 0, 0, 0, 0] } else none)
        [5, 9, 5] 5
      = some { validatorIndex := 5, clRewardsGwei := -3,
               elRewardsGwei := 21, totalRewardsGwei := 18 } ∧
    GetTotalRewards (fun _ => (-3 : Int))
        (fun j => if j = 5 then some { txFeeRewardWei := [5, 0, 0, 0, 0] } else none)
        [5, 9, 5] 9
      = none := by
  constructor
  · rw [(getTotalRewards_correct (fun _ => (-3 : Int))
        (fun j => if j = 5 then some { txFeeRewardWei := [5, 0, 0, 0, 0] } else none)
        [5, 9, 5] 5).1 { txFeeRewardWei := [5, 0, 0, 0, 0] } (by decide) (by decide)]
    decide
  · exact (getTotalRewards_correct (fun _ => (-3 : Int))
        (fun j => if j = 5 then some { txFeeRewardWei := [5, 0, 0, 0, 0] } else none)
        [5, 9, 5] 9).2 (Or.inr (by decide))

/-! ## Address normalization (internal/dora/address.go, internal/server/server.go)

Go strings are modelled as lists of bytes (`List Nat`); all inputs of
interest are ASCII, so `strings.TrimSpace` / `strings.ToLower` are
modelled byte-wise.
-/

/-- ASCII whitespace recognised by `strings.TrimSpace`. -/
def isSpaceByte (b : Nat) : Bool :=
  b == 9 || b == 10 || b == 11 || b == 12 || b == 13 || b == 32

/-- `strings.TrimSpace`: drop whitespace from both ends. -/
def trimSpace (l : List Nat) : List Nat :=
  ((l.dropWhile isSpaceByte).reverse.dropWhile isSpaceByte).reverse

/-- `strings.HasPrefix(s, "0x") || strings.HasPrefix(s, "0X")`. -/
def startsWith0x : List Nat → Bool
  | 48 :: 120 :: _ => true
  | 48 :: 88 :: _ => true
  | _ => false

/-- The prefix strip in `NormalizeAddress`: `trimmed = trimmed[2:]` when
the `0x`/`0X` marker is present. -/
def drop0x (l : List Nat) : List Nat :=
  if startsWith0x l then l.drop 2 else l

/-- `hex.DecodeString` accepts exactly the hexadecimal digits. -/
def isHexDigitByte (b : Nat) : Bool :=
  (48 ≤ b && b ≤ 57) || (97 ≤ b && b ≤ 102) || (65 ≤ b && b ≤ 70)

/-- ASCII `strings.ToLower`, byte-wise. -/
def toLowerByte (b : Nat) : Nat :=
  if 65 ≤ b ∧ b ≤ 90 then b + 32 else b

/-- `dora.NormalizeAddress` from the source: trim whitespace, reject empty,
strip an optional `0x`/`0X` marker, require exactly 40 hex characters
(`hex.DecodeString` must succeed; 40 is even), lowercase and re-prefix
with `0x`. -/
def NormalizeAddress (address : List Nat) : Except Unit (List Nat) :=
  let trimmed := trimSpace address
  if trimmed = [] then .error ()
  else
    let t := drop0x trimmed
    if t.length ≠ 40 then .error ()
    else if ¬ (t.all isHexDigitByte = true) then .error ()
    else .ok (48 :: 120 :: t.map toLowerByte)

/-- `strings.HasPrefix(s, "0x01") || strings.HasPrefix(s, "0x02")` on the
raw (untrimmed) request address, as in `addressRewardsHandler`. -/
def startsWithCredentialMarker : List Nat → Bool
  | 48 :: 120 :: 48 :: 49 :: _ => true
  | 48 :: 120 :: 48 :: 50 :: _ => true
  | _ => false

/-- The withdrawal-credential rewrite in `Server.addressRewardsHandler`:
when the raw address starts with `0x01`/`0x02` and is exactly 66
characters, replace it by `strings.ToLower("0x" + address[26:])`;
otherwise leave it unchanged. -/
def handlerAddressRewrite (address : List Nat) : List Nat :=
  if startsWithCredentialMarker address then
    if address.length = 66 then ((48 :: 120 :: address.drop 26).map toLowerByte)
    else address
  else address

/-- Modelled from the spec: `DB.ValidatorDetailsByAddress` (absent from
`src/`; §4.8 steps 1–2 and the handler's `dora.ErrInvalidAddress` check)
normalizes its address argument with `NormalizeAddress` and surfaces an
invalid-address error otherwise.  The composed address path of the
address-rewards endpoint is therefore the handler's credential rewrite
followed by `NormalizeAddress`. -/
def addressRewardsNormalize (address : List Nat) : Except Unit (List Nat) :=
  NormalizeAddress (handlerAddressRewrite address)

/-- ASCII of `"0x01"`. -/
def credentialMarker01 : List Nat := [48, 120, 48, 49]

/-- ASCII of the sample 20-byte address
`0988DC1554CF6877508208FFF8AAB4E5AFA11EE3` (upper-case hex). -/
def sampleAddr40 : List Nat :=
  [48, 57, 56, 56, 68, 67, 49, 53, 53, 52, 67, 70, 54, 56, 55, 55, 53, 48, 56, 50,
   48, 56, 70, 70, 70, 56, 65, 65, 66, 52, 69, 53, 65, 70, 65, 49, 49, 69, 69, 51]

theorem dropWhile_eq_self_of_forall {p : Nat → Bool} {l : List Nat}
    (h : ∀ b ∈ l, p b = false) : l.dropWhile p = l := by
  cases l with
  | nil => rfl
  | cons a t =>
    rw [List.dropWhile_cons, h a (by simp)]
    simp

theorem trimSpace_eq_self {l : List Nat} (h : ∀ b ∈ l, isSpaceByte b = false) :
    trimSpace l = l := by
  unfold trimSpace
  rw [dropWhile_eq_self_of_forall h,
    dropWhile_eq_self_of_forall (fun b hb => h b (List.mem_reverse.mp hb)),
    List.reverse_reverse]

theorem isSpaceByte_eq_false_of_hex {b : Nat} (h : isHexDigitByte b = true) :
    isSpaceByte b = false := by
  simp only [isHexDigitByte, Bool.or_eq_true, Bool.and_eq_true, decide_eq_true_eq] at h
  simp only [isSpaceByte, Bool.or_eq_false_iff, beq_eq_false_iff_ne, ne_eq]
  omega

theorem toLowerByte_hex {b : Nat} (h : isHexDigitByte b = true) :
    isHexDigitByte (toLowerByte b) = true := by
  simp only [isHexDigitByte, Bool.or_eq_true, Bool.and_eq_true, decide_eq_true_eq] at h ⊢
  unfold toLowerByte
  split <;> omega

theorem toLowerByte_idem (b : Nat) : toLowerByte (toLowerByte b) = toLowerByte b := by
  unfold toLowerByte
  split
  · split <;> omega
  · rfl

theorem trimSpace_cons_space {a : Nat} {l : List Nat} (ha : isSpaceByte a = true)
    (h : ∀ b ∈ l, isSpaceByte b = false) : trimSpace (a :: l) = l := by
  unfold trimSpace
  rw [List.dropWhile_cons, ha]
  simp only [if_true]
  rw [dropWhile_eq_self_of_forall h,
    dropWhile_eq_self_of_forall (fun b hb => h b (List.mem_reverse.mp hb)),
    List.reverse_reverse]

/-- C4 counterexample: the input `" 0x01"` + 22 zero hex chars + a 40-char
hex address (the claim's example, with its leading space) is rejected with
the invalid-address error: the handler tests the `0x01` prefix on the raw,
untrimmed string, so the credential path is not taken, and the trimmed,
stripped remainder has 64 hex characters, not 40. -/
theorem address_credential_space_rejected :
    addressRewardsNormalize
        (32 :: (credentialMarker01 ++ List.replicate 22 48 ++ sampleAddr40))
      = .error () := by
  rfl

theorem normalizeAddress_hexform {l : List Nat}
    (hns : ∀ b ∈ l, isHexDigitByte b = true) (hlen : l.length = 40) :
    NormalizeAddress (48 :: 120 :: l) = .ok (48 :: 120 :: l.map toLowerByte) := by
  unfold NormalizeAddress
  have htrim : trimSpace (48 :: 120 :: l) = 48 :: 120 :: l := by
    apply trimSpace_eq_self
    intro b hb
    rcases List.mem_cons.mp hb with rfl | hb
    · rfl
    rcases List.mem_cons.mp hb with rfl | hb
    · rfl
    · exact isSpaceByte_eq_false_of_hex (hns b hb)
  rw [htrim]
  rw [if_neg (by simp)]
  have hdrop : drop0x (48 :: 120 :: l) = l := rfl
  simp only [hdrop]
  rw [if_neg (by simp [hlen])]
  rw [if_neg (by
    simp only [not_not, List.all_eq_true]
    exact hns)]

/-- C4 (amended): the address path of the address-rewards endpoint first
applies the credential rewrite to the *raw* input — exactly 66 characters
with raw prefix `0x01`/`0x02`, taking the trailing 40 hex characters —
and then normalizes (trim whitespace, strip optional `0x`, require 40 hex
characters, lowercase, re-prefix `0x`).  Hence: (i) the credential input
*without* surrounding whitespace yields `0x` + the lower-cased 20-byte
address; (ii) the same input with a leading space is rejected with an
invalid-address error (the prefix test sees the space); (iii) any input
left alone by the rewrite whose trimmed, stripped form is not exactly 40
characters is rejected with an invalid-address error. -/
theorem address_normalization (addr : List Nat) (hlen : addr.length = 40)
    (hhex : ∀ b ∈ addr, isHexDigitByte b = true) :
    addressRewardsNormalize (credentialMarker01 ++ List.replicate 22 48 ++ addr)
        = .ok (48 :: 120 :: addr.map toLowerByte) ∧
    addressRewardsNormalize (32 :: (credentialMarker01 ++ List.replicate 22 48 ++ addr))
        = .error () ∧
    (∀ a : List Nat, handlerAddressRewrite a = a →
      (drop0x (trimSpace a)).length ≠ 40 → addressRewardsNormalize a = .error ()) := by
  refine ⟨?_, ?_, ?_⟩
  · unfold addressRewardsNormalize handlerAddressRewrite
    rw [if_pos (show startsWithCredentialMarker
        (credentialMarker01 ++ List.replicate 22 48 ++ addr) = true from rfl)]
    rw [if_pos (by simp [credentialMarker01, hlen])]
    have hdrop : (credentialMarker01 ++ List.replicate 22 48 ++ addr).drop 26 = addr :=
      List.drop_left' (by simp [credentialMarker01])
    rw [hdrop]
    have hmap : (48 :: 120 :: addr).map toLowerByte
        = 48 :: 120 :: addr.map toLowerByte := by
      simp [List.map_cons, toLowerByte]
    rw [hmap]
    rw [normalizeAddress_hexform
      (fun b hb => by
        rcases List.mem_map.mp hb with ⟨c, hc, rfl⟩
        exact toLowerByte_hex (hhex c hc))
      (by simp [hlen])]
    rw [List.map_map]
    rw [show List.map (toLowerByte ∘ toLowerByte) addr = List.map toLowerByte addr from
      List.map_congr_left (fun a _ => toLowerByte_idem a)]
  · unfold addressRewardsNormalize
    have hfix : handlerAddressRewrite
        (32 :: (credentialMarker01 ++ List.replicate 22 48 ++ addr))
          = 32 :: (credentialMarker01 ++ List.replicate 22 48 ++ addr) := rfl
    rw [hfix]
    unfold NormalizeAddress
    have hns : ∀ b ∈ credentialMarker01 ++ List.replicate 22 48 ++ addr,
        isSpaceByte b = false := by
      intro b hb
      rcases List.mem_append.mp hb with hb | hb
      · rcases List.mem_append.mp hb with hb | hb
        · fin_cases hb <;> rfl
        · rw [List.eq_of_mem_replicate hb]; rfl
      · exact isSpaceByte_eq_false_of_hex (hhex b hb)
    rw [trimSpace_cons_space (show isSpaceByte 32 = true from rfl) hns]
    rw [if_neg (by simp [credentialMarker01])]
    have hdrop : drop0x (credentialMarker01 ++ List.replicate 22 48 ++ addr)
        = 48 :: 49 :: (List.replicate 22 48 ++ addr) := rfl
    rw [hdrop]
    rw [if_pos (by simp [hlen])]
  · intro a hfix hlen40
    unfold addressRewardsNormalize
    rw [hfix]
    unfold NormalizeAddress
    by_cases he : trimSpace a = []
    · rw [if_pos he]
    · rw [if_neg he, if_pos hlen40]

/-- C4 witness: the amended behaviour at the sample upper-case credential
address: the 66-char credential yields the lower-cased `0x…` address; with
a leading space it is rejected. -/
theorem address_normalization_witness :
    addressRewardsNormalize (credentialMarker01 ++ List.replicate 22 48 ++ sampleAddr40)
        = .ok (48 :: 120 :: sampleAddr40.map toLowerByte) ∧
    addressRewardsNormalize (32 :: (credentialMarker01 ++ List.replicate 22 48 ++ sampleAddr40))
        = .error () :=
  ⟨(address_normalization sampleAddr40 (by decide) (by decide)).1,
   (address_normalization sampleAddr40 (by decide) (by decide)).2.1⟩

/-! ## Recent-rewards estimation and APR averaging (internal/server/estimation.go)

`float64` arithmetic is modelled over `ℚ`: every computation these claims
touch is a field computation (sums, products, quotients, comparisons), so
the rational model is the exact-arithmetic reading of the code.
-/

/-- `dora.ValidatorLifecycle`. -/
structure ValidatorLifecycle where
  ActivationEpoch : Nat
  ExitEpoch : Nat
  deriving DecidableEq, Repr

/-- `secondsPerDay` from the source. -/
def secondsPerDay : Nat := 24 * 60 * 60

/-- `secondsPerYear` from the source. -/
def secondsPerYear : Nat := 365 * secondsPerDay

/-- `defaultEffectiveBalanceGwei` from the source. -/
def defaultEffectiveBalanceGwei : Int := 32000000000

/-- `estimateWindowDays` from the source. -/
def estimateWindowDays : Nat := 31

/-- `estimateWindowEpochs` from the source: `(31·86400) / 384`. -/
def estimateWindowEpochs : Nat := estimateWindowDays * secondsPerDay / SECONDS_PER_EPOCH

/-- `activeSecondsInWindow` from the source. -/
def activeSecondsInWindow (lifecycle : ValidatorLifecycle)
    (currentEpoch epochsInWindow : Nat) : ℚ :=
  let windowStart := if currentEpoch > epochsInWindow then currentEpoch - epochsInWindow else 0
  let start := max lifecycle.ActivationEpoch windowStart
  let e := min lifecycle.ExitEpoch currentEpoch
  if e ≤ start then 0
  else (((e - start : Nat) : ℚ)) * ((SECONDS_PER_EPOCH : Nat) : ℚ)

/-- `estimateRecentRewardsForValidators` from the source.  Go map reads
that miss yield the zero value, modelled by `Option.getD 0`; the deposit
lookup's `ok` flag is modelled by matching on the `Option`. -/
def estimateRecentRewardsForValidators
    (validatorIndices : List Nat) (aprPercent : ℚ) (currentEpoch epochsInWindow : Nat)
    (effectiveBalances depositBalances : Nat → Option Int)
    (lifecycles : Nat → Option ValidatorLifecycle) : ℚ :=
  if aprPercent ≤ 0 ∨ validatorIndices = [] ∨ epochsInWindow = 0 then 0
  else
    let apr := aprPercent / 100
    validatorIndices.foldl
      (fun estimated idx =>
        match lifecycles idx with
        | none => estimated
        | some lifecycle =>
          let balance0 : Int := (effectiveBalances idx).getD 0
          let balance : Int :=
            if balance0 ≤ 0 then
              match depositBalances idx with
              | some dep => if 0 < dep then dep else defaultEffectiveBalanceGwei
              | none => defaultEffectiveBalanceGwei
            else balance0
          let activeSeconds := activeSecondsInWindow lifecycle currentEpoch epochsInWindow
          if activeSeconds = 0 then estimated
          else estimated + (balance : ℚ) * apr * (activeSeconds / ((secondsPerYear : Nat) : ℚ)))
      0

/-- The claim's per-index contribution, in the spec's formulation:
`windowStart = max(0, E − W)`,
`active_epochs = max(0, min(exit, E) − max(activation, windowStart))`,
balance falling back effective → deposit → default, contribution
`balance · (apr/100) · (active_seconds / seconds_per_year)`; `0` for an
unknown lifecycle. -/
def recentRewardContribution (aprPercent : ℚ) (currentEpoch epochsInWindow : Nat)
    (effectiveBalances depositBalances : Nat → Option Int)
    (lifecycles : Nat → Option ValidatorLifecycle) (idx : Nat) : ℚ :=
  match lifecycles idx with
  | none => 0
  | some lifecycle =>
    let windowStart : Int := max 0 ((currentEpoch : Int) - (epochsInWindow : Int))
    let activeEpochs : Int :=
      max 0 (min (lifecycle.ExitEpoch : Int) (currentEpoch : Int)
        - max (lifecycle.ActivationEpoch : Int) windowStart)
    let balance : Int :=
      if 0 < (effectiveBalances idx).getD 0 then (effectiveBalances idx).getD 0
      else if 0 < (depositBalances idx).getD 0 then (depositBalances idx).getD 0
      else defaultEffectiveBalanceGwei
    let activeSeconds : ℚ := (activeEpochs : ℚ) * ((SECONDS_PER_EPOCH : Nat) : ℚ)
    (balance : ℚ) * (aprPercent / 100) * (activeSeconds / ((secondsPerYear : Nat) : ℚ))

theorem activeSecondsInWindow_eq (lifecycle : ValidatorLifecycle)
    (currentEpoch epochsInWindow : Nat) :
    activeSecondsInWindow lifecycle currentEpoch epochsInWindow
      = ((max 0 (min (lifecycle.ExitEpoch : Int) (currentEpoch : Int)
          - max (lifecycle.ActivationEpoch : Int)
              (max 0 ((currentEpoch : Int) - (epochsInWindow : Int)))) : Int) : ℚ)
        * ((SECONDS_PER_EPOCH : Nat) : ℚ) := by
  unfold activeSecondsInWindow
  have hws : ((if currentEpoch > epochsInWindow then currentEpoch - epochsInWindow else 0 : Nat) : Int)
      = max 0 ((currentEpoch : Int) - (epochsInWindow : Int)) := by
    split <;> omega
  by_cases h : min lifecycle.ExitEpoch currentEpoch
      ≤ max lifecycle.ActivationEpoch
          (if currentEpoch > epochsInWindow then currentEpoch - epochsInWindow else 0)
  · rw [if_pos h]
    have hz : max 0 (min (lifecycle.ExitEpoch : Int) (currentEpoch : Int)
        - max (lifecycle.ActivationEpoch : Int)
            (max 0 ((currentEpoch : Int) - (epochsInWindow : Int)))) = 0 := by
      rw [← hws]
      omega
    rw [hz]
    norm_num
  · rw [if_neg h]
    have hz : max 0 (min (lifecycle.ExitEpoch : Int) (currentEpoch : Int)
        - max (lifecycle.ActivationEpoch : Int)
            (max 0 ((currentEpoch : Int) - (epochsInWindow : Int))))
      = ((min lifecycle.ExitEpoch currentEpoch
          - max lifecycle.ActivationEpoch
              (if currentEpoch > epochsInWindow then currentEpoch - epochsInWindow else 0) : Nat) : Int) := by
      rw [← hws]
      omega
    rw [hz]
    norm_num

theorem foldl_body_eq_sum {α : Type} (body : ℚ → α → ℚ) (f : α → ℚ)
    (hbody : ∀ est x, body est x = est + f x) :
    ∀ (l : List α) (acc : ℚ), l.foldl body acc = acc + (l.map f).sum := by
  intro l
  induction l with
  | nil => intro acc; simp
  | cons x rest ih =>
    intro acc
    simp only [List.foldl_cons, List.map_cons, List.sum_cons]
    rw [hbody, ih]
    ring

/-- C9: the recent-rewards estimator returns `0` whenever the APR is `≤ 0`,
the index list is empty, or the window is `0` epochs; otherwise it returns
the sum over the indices of the spec's contribution — `0` for indices with
no known lifecycle or no active seconds, else
`balance · (apr/100) · (active_seconds / seconds_per_year)` with
`active_epochs = max(0, min(exit, E) − max(activation, max(0, E − W)))`
and the effective → deposit → default balance fallback. -/
theorem estimateRecentRewards_correct
    (validatorIndices : List Nat) (aprPercent : ℚ) (currentEpoch epochsInWindow : Nat)
    (effectiveBalances depositBalances : Nat → Option Int)
    (lifecycles : Nat → Option ValidatorLifecycle) :
    ((aprPercent ≤ 0 ∨ validatorIndices = [] ∨ epochsInWindow = 0) →
      estimateRecentRewardsForValidators validatorIndices aprPercent currentEpoch
        epochsInWindow effectiveBalances depositBalances lifecycles = 0) ∧
    (0 < aprPercent → validatorIndices ≠ [] → epochsInWindow ≠ 0 →
      estimateRecentRewardsForValidators validatorIndices aprPercent currentEpoch
          epochsInWindow effectiveBalances depositBalances lifecycles
        = (validatorIndices.map (recentRewardContribution aprPercent currentEpoch
            epochsInWindow effectiveBalances depositBalances lifecycles)).sum) := by
  constructor
  · intro h
    unfold estimateRecentRewardsForValidators
    rw [if_pos h]
  · intro h1 h2 h3
    unfold estimateRecentRewardsForValidators
    rw [if_neg (by push_neg; exact ⟨h1, h2, h3⟩)]
    rw [foldl_body_eq_sum _ (recentRewardContribution aprPercent currentEpoch
        epochsInWindow effectiveBalances depositBalances lifecycles) ?_ validatorIndices 0]
    · rw [zero_add]
    intro est idx
    unfold recentRewardContribution
    cases hlc : lifecycles idx with
    | none => simp
    | some lifecycle =>
      simp only []
      have hbal : (if (effectiveBalances idx).getD 0 ≤ 0 then
            match depositBalances idx with
            | some dep => if 0 < dep then dep else defaultEffectiveBalanceGwei
            | none => defaultEffectiveBalanceGwei
          else (effectiveBalances idx).getD 0)
          = (if 0 < (effectiveBalances idx).getD 0 then (effectiveBalances idx).getD 0
             else if 0 < (depositBalances idx).getD 0 then (depositBalances idx).getD 0
             else defaultEffectiveBalanceGwei) := by
        by_cases hb : (effectiveBalances idx).getD 0 ≤ 0
        · rw [if_pos hb, if_neg (by omega)]
          cases hdep : depositBalances idx with
          | none => simp
          | some dep =>
            simp only [Option.getD_some]
        · rw [if_neg hb, if_pos (by omega)]
      rw [hbal]
      rw [← activeSecondsInWindow_eq]
      by_cases has : activeSecondsInWindow lifecycle currentEpoch epochsInWindow = 0
      · rw [if_pos has, has]
        ring
      · rw [if_neg has]

/-- C9 witness: two validators at APR `10`, epoch `100`, window `50`:
validator `1` is active the whole window, validator `2` exited before the
window starts; the estimate equals the contribution sum. -/
theorem estimateRecentRewards_correct_witness :
    estimateRecentRewardsForValidators [1, 2] 10 100 50
        (fun _ => some 32000000000) (fun _ => none)
        (fun i => if i = 1 then some ⟨0, 200⟩ else if i = 2 then some ⟨10, 40⟩ else none)
      = (([1, 2] : List Nat).map (recentRewardContribution 10 100 50
          (fun _ => some 32000000000) (fun _ => none)
          (fun i => if i = 1 then some ⟨0, 200⟩ else if i = 2 then some ⟨10, 40⟩ else none))).sum :=
  (estimateRecentRewards_correct [1, 2] 10 100 50
      (fun _ => some 32000000000) (fun _ => none)
      (fun i => if i = 1 then some ⟨0, 200⟩ else if i = 2 then some ⟨10, 40⟩ else none)).2
    (by norm_num) (by simp) (by norm_num)

/-- `maxHistoryDays` from the source. -/
def maxHistoryDays : Nat := 31

/-- `removeOutliersIQR` from the source: with fewer than 4 values return
them all; otherwise sort ascending, take `q1 = sorted[n/4]`,
`q3 = sorted[3n/4]`, `iqr = q3 − q1`, and keep the original values inside
`[q1 − 1.5·iqr, q3 + 1.5·iqr]`. -/
def removeOutliersIQR (values : List ℚ) : List ℚ :=
  if values.length < 4 then values
  else
    let sorted := List.insertionSort (· ≤ ·) values
    let n := sorted.length
    let q1 := sorted.getD (n / 4) 0
    let q3 := sorted.getD (3 * n / 4) 0
    let iqr := q3 - q1
    let lowerBound := q1 - 3 / 2 * iqr
    let upperBound := q3 + 3 / 2 * iqr
    values.filter (fun v => decide (lowerBound ≤ v ∧ v ≤ upperBound))

/-- The APR-value collection step of `calculate31DayAverageAPR`: the last
`maxHistoryDays` history snapshots with positive APR, then the current
snapshot when present and positive.  Snapshots are represented by their
`ProjectAprPercent` value, the only field the computation reads. -/
def collectAprValues (history : List ℚ) (currentSnapshot : Option ℚ) : List ℚ :=
  let startIdx := if history.length > maxHistoryDays then history.length - maxHistoryDays else 0
  (history.drop startIdx).filter (fun v => decide (0 < v)) ++
    (match currentSnapshot with
     | some c => if 0 < c then [c] else []
     | none => [])

/-- `calculate31DayAverageAPR` from the source: collect APR values; `0`
for none, the value itself for one; otherwise IQR-filter, fall back to the
unfiltered values when everything was filtered, and return the arithmetic
mean. -/
def calculate31DayAverageAPR (history : List ℚ) (currentSnapshot : Option ℚ) : ℚ :=
  let aprValues := collectAprValues history currentSnapshot
  if aprValues.length = 0 then 0
  else if aprValues.length = 1 then aprValues.headD 0
  else
    let filtered := removeOutliersIQR aprValues
    let chosen := if filtered.isEmpty then aprValues else filtered
    chosen.sum / (chosen.length : ℚ)

/-- C3 counterexample: with the claim's input — history APRs
`{10, 10.5, 11, 11.5, 100}` *plus* a current snapshot of `100` — the six
collected values have `q3 = sorted[4] = 100`, so the IQR bounds admit
everything: `100` survives the filter and the function returns the mean
`40.5` of all six values, not the mean of a filtered set. -/
theorem averageAPR_claim_false :
    calculate31DayAverageAPR [10, 21 / 2, 11, 23 / 2, 100] (some 100) = 81 / 2 ∧
    (100 : ℚ) ∈ removeOutliersIQR [10, 21 / 2, 11, 23 / 2, 100, 100] := by
  constructor
  · norm_num [calculate31DayAverageAPR, collectAprValues, maxHistoryDays,
      removeOutliersIQR, List.insertionSort, List.orderedInsert]
  · norm_num [removeOutliersIQR, List.insertionSort, List.orderedInsert]

/-- C3 (amended): (i) with history `{10, 10.5, 11, 11.5}` plus a single
current-snapshot value `100` (five values in total, matching the
repository's own test), the IQR filter removes exactly the `100` and the
function returns the mean `10.75` of the remaining four values; (ii) for
any input collecting at least one but fewer than 4 positive values, no
value is filtered: the function returns the arithmetic mean of all
collected values. -/
theorem averageAPR_iqr (history : List ℚ) (currentSnapshot : Option ℚ)
    (hlo : 1 ≤ (collectAprValues history currentSnapshot).length)
    (hhi : (collectAprValues history currentSnapshot).length < 4) :
    (removeOutliersIQR [10, 21 / 2, 11, 23 / 2, 100] = [10, 21 / 2, 11, 23 / 2] ∧
     calculate31DayAverageAPR [10, 21 / 2, 11, 23 / 2] (some 100) = 43 / 4) ∧
    calculate31DayAverageAPR history currentSnapshot
      = (collectAprValues history currentSnapshot).sum
        / ((collectAprValues history currentSnapshot).length : ℚ) := by
  refine ⟨⟨?_, ?_⟩, ?_⟩
  · norm_num [removeOutliersIQR, List.insertionSort, List.orderedInsert]
  · norm_num [calculate31DayAverageAPR, collectAprValues, maxHistoryDays,
      removeOutliersIQR, List.insertionSort, List.orderedInsert]
  unfold calculate31DayAverageAPR
  by_cases h1 : (collectAprValues history currentSnapshot).length = 1
  · rw [if_neg (by omega), if_pos h1]
    obtain ⟨a, ha⟩ := List.length_eq_one.mp h1
    rw [ha]
    simp
  · rw [if_neg (by omega), if_neg h1]
    have hfil : removeOutliersIQR (collectAprValues history currentSnapshot)
        = collectAprValues history currentSnapshot := by
      unfold removeOutliersIQR
      rw [if_pos hhi]
    rw [hfil]
    dsimp only
    rw [ite_self]

/-- C3 witness: the general small-input clause applied to history `[7]`
and no current snapshot: one positive value collected, mean `7`. -/
theorem averageAPR_iqr_witness :
    calculate31DayAverageAPR [7] none = (collectAprValues [7] none).sum
      / ((collectAprValues [7] none).length : ℚ) :=
  (averageAPR_iqr [7] none (by norm_num [collectAprValues, maxHistoryDays])
    (by norm_num [collectAprValues, maxHistoryDays])).2

/-- C10: for at least 4 values the sorted quartile `q1` itself lies inside
`[q1 − 1.5·iqr, q3 + 1.5·iqr]` (sorting gives `q1 ≤ q3`, so `iqr ≥ 0`),
hence the IQR filter output is never empty, the all-filtered fallback
branch of `calculate31DayAverageAPR` is not taken, and the final mean
never divides by zero. -/
theorem removeOutliersIQR_nonempty (values : List ℚ) (h : 4 ≤ values.length) :
    removeOutliersIQR values ≠ [] ∧
    (if (removeOutliersIQR values).isEmpty then values else removeOutliersIQR values)
      = removeOutliersIQR values := by
  have hmain : removeOutliersIQR values ≠ [] := by
    unfold removeOutliersIQR
    rw [if_neg (by omega)]
    have hlen : (List.insertionSort (· ≤ ·) values).length = values.length :=
      (List.perm_insertionSort (· ≤ ·) values).length_eq
    have hq1lt : (List.insertionSort (· ≤ ·) values).length / 4
        < (List.insertionSort (· ≤ ·) values).length := by omega
    have hq3lt : 3 * (List.insertionSort (· ≤ ·) values).length / 4
        < (List.insertionSort (· ≤ ·) values).length := by omega
    set sorted := List.insertionSort (· ≤ ·) values with hsorted
    set q1 := sorted.getD (sorted.length / 4) 0 with hq1
    set q3 := sorted.getD (3 * sorted.length / 4) 0 with hq3
    have hq1mem : q1 ∈ values := by
      rw [hq1, List.getD_eq_getElem sorted 0 hq1lt]
      exact (List.perm_insertionSort (· ≤ ·) values).mem_iff.mp (List.getElem_mem hq1lt)
    have hle : q1 ≤ q3 := by
      rw [hq1, hq3, List.getD_eq_getElem sorted 0 hq1lt, List.getD_eq_getElem sorted 0 hq3lt]
      have hsort : sorted.Sorted (· ≤ ·) := List.sorted_insertionSort (· ≤ ·) values
      rcases Nat.lt_or_ge (sorted.length / 4) (3 * sorted.length / 4) with hlt | hge
      · have hrel := @List.Sorted.rel_get_of_lt ℚ (· ≤ ·) sorted hsort
          ⟨sorted.length / 4, hq1lt⟩ ⟨3 * sorted.length / 4, hq3lt⟩ (Fin.mk_lt_mk.mpr hlt)
        simpa using hrel
      · have : sorted.length / 4 = 3 * sorted.length / 4 := by omega
        simp [this]
    apply List.ne_nil_of_mem (a := q1)
    apply List.mem_filter.mpr
    refine ⟨hq1mem, ?_⟩
    rw [decide_eq_true_eq]
    constructor <;> nlinarith [hle]
  exact ⟨hmain, by
    rw [if_neg (by
      intro habs
      exact hmain (List.isEmpty_iff.mp habs))]⟩

/-- C10 witness: the filter output and fallback branch at the concrete
4-value input `[1, 2, 3, 400]`. -/
theorem removeOutliersIQR_nonempty_witness :
    removeOutliersIQR [1, 2, 3, 400] ≠ [] ∧
    (if (removeOutliersIQR [1, 2, 3, 400]).isEmpty then [1, 2, 3, 400]
     else removeOutliersIQR [1, 2, 3, 400]) = removeOutliersIQR [1, 2, 3, 400] :=
  removeOutliersIQR_nonempty [1, 2, 3, 400] (by norm_num)

/-! ## The epoch fetcher (`GetRewardsForEpoch`, internal/rewards/service.go)

The fetch fans out per-slot sub-tasks plus one attestation task; every
write to the shared result map is serialized by one mutex and any
sub-task error fails the whole fetch (`errgroup`).  The model runs the
sub-tasks sequentially over the same map — each sub-task's effect on the
map and its error are modelled exactly; upstream RPC outcomes are the
model's inputs. -/

/-- The per-epoch result map `map[uint64]*types.ValidatorEpochIncome`. -/
def RewardsMap : Type := Nat → Option ValidatorEpochIncome

/-- Point update of the result map. -/
def mapSet (m : RewardsMap) (i : Nat) (v : ValidatorEpochIncome) : RewardsMap :=
  fun j => if j = i then some v else m j

/-- `if rewards[i] == nil { rewards[i] = &types.ValidatorEpochIncome{} }`. -/
def ensureEntry (m : RewardsMap) (i : Nat) : RewardsMap :=
  match m i with
  | some _ => m
  | none => mapSet m i {}

/-- Outcome of `client.ExecutionBlockNumber(slot)`. -/
inductive ExecBlockOutcome where
  | ok (blockNumber : Nat)
  | blockNotFound
  | slotPreMerge
  | otherError
  deriving DecidableEq, Repr

/-- Outcome of `client.SyncCommitteeRewards(slot)`. -/
structure SyncRow where
  validatorIndex : Nat
  reward : Int
  deriving DecidableEq, Repr

inductive SyncOutcome where
  | ok (rows : List SyncRow)
  | slotPreSyncCommittees
  | otherError
  deriving DecidableEq, Repr

/-- `client.BlockRewards(slot)` payload. -/
structure BlockRow where
  proposerIndex : Nat
  attestations : Nat
  attesterSlashings : Nat
  proposerSlashings : Nat
  syncAggregate : Nat
  deriving DecidableEq, Repr

/-- One entry of `client.AttestationRewards(epoch)`. -/
structure AttRow where
  validatorIndex : Nat
  head : Int
  source : Int
  target : Int
  inclusionDelay : Int
  deriving DecidableEq, Repr

/-- The errors the modelled fetch can return. -/
inductive EpochFetchError where
  | proposerNotFound (slot : Nat)
  | execBlockError (slot : Nat)
  | elRewardError (slot : Nat)
  | syncError (slot : Nat)
  | blockRewardsError (slot : Nat)
  | attestationFetchError
  | negativeHeadReward (validatorIndex : Nat)
  | positiveInclusionDelay (validatorIndex : Nat)
  deriving DecidableEq, Repr

/-- The EL sub-task of one slot: ensure the proposer's entry, then
`ExecutionBlockNumber`: on "block not found" increment `ProposalsMissed`
and succeed; on "slot pre-merge" succeed with no EL data; on any other
error fail the task; on success fetch `GetELRewardForBlock` (failure
fails the task) and overwrite the proposer's wei bytes. -/
def elSubTask (slot proposer : Nat) (execBlock : Nat → ExecBlockOutcome)
    (elRewardForBlock : Nat → Option Nat) (m : RewardsMap) :
    Except EpochFetchError RewardsMap :=
  let m₁ := ensureEntry m proposer
  match execBlock slot with
  | .blockNotFound =>
    let e := (m₁ proposer).getD {}
    .ok (mapSet m₁ proposer { e with proposalsMissed := u64add e.proposalsMissed 1 })
  | .slotPreMerge => .ok m₁
  | .otherError => .error (.execBlockError slot)
  | .ok blockNumber =>
    match elRewardForBlock blockNumber with
    | none => .error (.elRewardError slot)
    | some wei =>
      let e := (m₁ proposer).getD {}
      .ok (mapSet m₁ proposer { e with txFeeRewardWei := natToBytes wei })

/-- One sync-committee row: the signed reward is split into the reward
(positive side) or penalty (magnitude of the negative side) field. -/
def applySyncRow (m : RewardsMap) (row : SyncRow) : RewardsMap :=
  let m' := ensureEntry m row.validatorIndex
  let e := (m' row.validatorIndex).getD {}
  if 0 < row.reward then
    mapSet m' row.validatorIndex
      { e with syncCommitteeReward := u64add e.syncCommitteeReward row.reward.toNat }
  else
    mapSet m' row.validatorIndex
      { e with syncCommitteePenalty := u64add e.syncCommitteePenalty (-row.reward).toNat }

/-- The sync-committee sub-task of one slot; "pre-sync-committees" is
skipped, other errors fail the task. -/
def syncSubTask (slot : Nat) (syncRewards : Nat → SyncOutcome) (m : RewardsMap) :
    Except EpochFetchError RewardsMap :=
  match syncRewards slot with
  | .otherError => .error (.syncError slot)
  | .slotPreSyncCommittees => .ok m
  | .ok rows => .ok (rows.foldl applySyncRow m)

/-- The block-rewards sub-task of one slot. -/
def blockSubTask (slot : Nat) (blockRewards : Nat → Option BlockRow) (m : RewardsMap) :
    Except EpochFetchError RewardsMap :=
  match blockRewards slot with
  | none => .error (.blockRewardsError slot)
  | some row =>
    let m' := ensureEntry m row.proposerIndex
    let e := (m' row.proposerIndex).getD {}
    .ok (mapSet m' row.proposerIndex
      { e with
        proposerAttestationInclusionReward :=
          u64add e.proposerAttestationInclusionReward row.attestations
        proposerSlashingInclusionReward :=
          u64add e.proposerSlashingInclusionReward
            (u64add row.attesterSlashings row.proposerSlashings)
        proposerSyncInclusionReward := u64add e.proposerSyncInclusionReward row.syncAggregate })

/-- The attestation assignments one good row makes to its validator's
entry: head is assigned (`uint64(ar.Head)`), source/target go to the
reward field when positive and to the penalty field as a magnitude
otherwise, and `FinalityDelayPenalty := |inclusion_delay|`. -/
def attRowEntry (e : ValidatorEpochIncome) (row : AttRow) : ValidatorEpochIncome :=
  let e₁ := { e with attestationHeadReward := row.head.toNat }
  let e₂ :=
    if 0 < row.source then { e₁ with attestationSourceReward := row.source.toNat }
    else { e₁ with attestationSourcePenalty := (-row.source).toNat }
  let e₃ :=
    if 0 < row.target then { e₂ with attestationTargetReward := row.target.toNat }
    else { e₂ with attestationTargetPenalty := (-row.target).toNat }
  { e₃ with finalityDelayPenalty := (-row.inclusionDelay).toNat }

/-- The attestation task's per-entry loop: a negative head or a strictly
positive inclusion delay fails the fetch (the partially mutated map is
discarded, as the fetch returns no map on error); otherwise the row's
assignments are applied via `attRowEntry`. -/
def processAttRows : List AttRow → RewardsMap → Except EpochFetchError RewardsMap
  | [], m => .ok m
  | row :: rest, m =>
    if 0 ≤ row.head then
      if row.inclusionDelay ≤ 0 then
        processAttRows rest
          (mapSet (ensureEntry m row.validatorIndex) row.validatorIndex
            (attRowEntry
              ((ensureEntry m row.validatorIndex row.validatorIndex).getD {}) row))
      else .error (.positiveInclusionDelay row.validatorIndex)
    else .error (.negativeHeadReward row.validatorIndex)

/-- The whole-epoch attestation task. -/
def attestationTask (attestations : Option (List AttRow)) (m : RewardsMap) :
    Except EpochFetchError RewardsMap :=
  match attestations with
  | none => .error .attestationFetchError
  | some rows => processAttRows rows m

/-- The upstream responses one epoch fetch consumes. -/
structure EpochInputs where
  proposerAssignments : List (Nat × Nat)
  execBlock : Nat → ExecBlockOutcome
  elRewardForBlock : Nat → Option Nat
  syncRewards : Nat → SyncOutcome
  blockRewards : Nat → Option BlockRow
  attestations : Option (List AttRow)

/-- `slotsToProposerIndex`, built by iterating the assignment list. -/
def slotsToProposerIndex (assignments : List (Nat × Nat)) : Nat → Option Nat :=
  assignments.foldl (fun acc pa => fun s => if s = pa.1 then some pa.2 else acc s)
    (fun _ => none)

/-- One slot's task: look up the assigned proposer (missing assignments
fail the fetch) and run the three sub-tasks. -/
def processSlot (inp : EpochInputs) (slot : Nat) (m : RewardsMap) :
    Except EpochFetchError RewardsMap :=
  match slotsToProposerIndex inp.proposerAssignments slot with
  | none => .error (.proposerNotFound slot)
  | some proposer =>
    match elSubTask slot proposer inp.execBlock inp.elRewardForBlock m with
    | .error e => .error e
    | .ok m₁ =>
      match syncSubTask slot inp.syncRewards m₁ with
      | .error e => .error e
      | .ok m₂ => blockSubTask slot inp.blockRewards m₂

/-- All slot tasks in slot order. -/
def processSlots (inp : EpochInputs) : List Nat → RewardsMap → Except EpochFetchError RewardsMap
  | [], m => .ok m
  | slot :: rest, m =>
    match processSlot inp slot m with
    | .error e => .error e
    | .ok m' => processSlots inp rest m'

/-- `[startSlot .. endSlot]` with `startSlot = epoch · slots_per_epoch`
and `slots_per_epoch` the assignment count. -/
def epochSlots (epoch : Nat) (inp : EpochInputs) : List Nat :=
  (List.range inp.proposerAssignments.length).map
    (fun i => epoch * inp.proposerAssignments.length + i)

/-- `GetRewardsForEpoch` from the source: the per-slot tasks plus the
attestation task over one shared map; the first error fails the fetch and
no map is returned. -/
def GetRewardsForEpoch (epoch : Nat) (inp : EpochInputs) :
    Except EpochFetchError RewardsMap :=
  match processSlots inp (epochSlots epoch inp) (fun _ => none) with
  | .error e => .error e
  | .ok m => attestationTask inp.attestations m

theorem mapSet_self (m : RewardsMap) (i : Nat) (v : ValidatorEpochIncome) :
    mapSet m i v i = some v := by
  unfold mapSet
  rw [if_pos rfl]

theorem mapSet_other (m : RewardsMap) (i j : Nat) (v : ValidatorEpochIncome)
    (h : j ≠ i) : mapSet m i v j = m j := by
  unfold mapSet
  rw [if_neg h]

theorem ensureEntry_self (m : RewardsMap) (i : Nat) :
    ensureEntry m i i = some ((m i).getD {}) := by
  unfold ensureEntry
  cases h : m i with
  | some e => simp [h]
  | none => exact mapSet_self m i {}

theorem ensureEntry_other (m : RewardsMap) (i j : Nat) (h : j ≠ i) :
    ensureEntry m i j = m j := by
  unfold ensureEntry
  cases hm : m i with
  | some e => rfl
  | none => exact mapSet_other m i j {} h

/-- The ways the EL path of a slot fails the sub-task (beyond the two
semantic outcomes): `ExecutionBlockNumber` returns a non-semantic error,
or it succeeds and `GetELRewardForBlock` fails for that block number. -/
def elPathFails (inp : EpochInputs) (s : Nat) : Prop :=
  inp.execBlock s = .otherError ∨
  ∃ blockNumber, inp.execBlock s = .ok blockNumber ∧
    inp.elRewardForBlock blockNumber = none

theorem elSubTask_error_of_elPathFails (inp : EpochInputs) (s proposer : Nat)
    (m : RewardsMap) (h : elPathFails inp s) :
    ∃ e, elSubTask s proposer inp.execBlock inp.elRewardForBlock m = .error e := by
  rcases h with h | ⟨blockNumber, hbn, helr⟩
  · refine ⟨.execBlockError s, ?_⟩
    unfold elSubTask
    rw [h]
  · refine ⟨.elRewardError s, ?_⟩
    unfold elSubTask
    rw [hbn]
    dsimp only
    rw [helr]

theorem processSlots_ok_no_el_failure (inp : EpochInputs) :
    ∀ (slots : List Nat) (m m' : RewardsMap),
      processSlots inp slots m = .ok m' → ∀ s ∈ slots, ¬ elPathFails inp s := by
  intro slots
  induction slots with
  | nil =>
    intro m m' _ s hs
    simp at hs
  | cons slot rest ih =>
    intro m m' h s hs
    simp only [processSlots] at h
    cases hps : processSlot inp slot m with
    | error e =>
      rw [hps] at h
      simp at h
    | ok m₁ =>
      rw [hps] at h
      dsimp only at h
      rcases List.mem_cons.mp hs with rfl | hs'
      · intro habs
        unfold processSlot at hps
        cases hpl : slotsToProposerIndex inp.proposerAssignments s with
        | none =>
          rw [hpl] at hps
          simp at hps
        | some proposer =>
          rw [hpl] at hps
          dsimp only at hps
          obtain ⟨e, hel⟩ := elSubTask_error_of_elPathFails inp s proposer m habs
          rw [hel] at hps
          simp at hps
      · exact ih m₁ m' h s hs'

/-- C6: in the per-slot EL sub-task — (i) a "block not found" outcome
increments the mapped proposer's `ProposalsMissed` by one, records no EL
reward (the wei bytes are unchanged) and returns no error; (ii) a "slot
pre-merge" outcome only ensures the proposer's entry, records no EL
reward and returns no error; (iii) a non-semantic `ExecutionBlockNumber`
error fails the sub-task, and (iv) so does a failing `GetELRewardForBlock`
after a successful block-number fetch; (v) hence any epoch fetch whose
slot range hits either EL-path failure returns an error instead of a
result map. -/
theorem elSubTask_cases (slot proposer : Nat) (execBlock : Nat → ExecBlockOutcome)
    (elRewardForBlock : Nat → Option Nat) (m : RewardsMap) :
    (execBlock slot = .blockNotFound →
      ∃ m', elSubTask slot proposer execBlock elRewardForBlock m = .ok m' ∧
        (∃ e', m' proposer = some e' ∧
          e'.proposalsMissed = u64add ((m proposer).getD {}).proposalsMissed 1 ∧
          e'.txFeeRewardWei = ((m proposer).getD {}).txFeeRewardWei) ∧
        ∀ j, j ≠ proposer → m' j = m j) ∧
    (execBlock slot = .slotPreMerge →
      elSubTask slot proposer execBlock elRewardForBlock m = .ok (ensureEntry m proposer) ∧
      ensureEntry m proposer proposer = some ((m proposer).getD {})) ∧
    (execBlock slot = .otherError →
      elSubTask slot proposer execBlock elRewardForBlock m
        = .error (.execBlockError slot)) ∧
    (∀ blockNumber : Nat, execBlock slot = .ok blockNumber →
      elRewardForBlock blockNumber = none →
      elSubTask slot proposer execBlock elRewardForBlock m
        = .error (.elRewardError slot)) ∧
    (∀ (epoch : Nat) (inp : EpochInputs),
      (∃ s ∈ epochSlots epoch inp, elPathFails inp s) →
      ∃ e, GetRewardsForEpoch epoch inp = .error e) := by
  refine ⟨?_, ?_, ?_, ?_, ?_⟩
  · intro h
    unfold elSubTask
    rw [h]
    refine ⟨_, rfl, ⟨_, mapSet_self _ _ _, ?_, ?_⟩, ?_⟩
    · rw [ensureEntry_self m proposer]
      rfl
    · rw [ensureEntry_self m proposer]
      rfl
    · intro j hj
      rw [mapSet_other _ _ _ _ hj, ensureEntry_other _ _ _ hj]
  · intro h
    unfold elSubTask
    rw [h]
    exact ⟨rfl, ensureEntry_self m proposer⟩
  · intro h
    unfold elSubTask
    rw [h]
  · intro blockNumber hbn helr
    unfold elSubTask
    rw [hbn]
    dsimp only
    rw [helr]
  · intro epoch inp ⟨s, hs, hbad⟩
    cases hps : processSlots inp (epochSlots epoch inp) (fun _ => none) with
    | error e =>
      refine ⟨e, ?_⟩
      unfold GetRewardsForEpoch
      rw [hps]
    | ok m0 =>
      exact absurd hbad (processSlots_ok_no_el_failure inp _ _ _ hps s hs)

/-- C6 witness: "block not found" at slot `0` for proposer `7` on an empty
map yields `ProposalsMissed = 1` and no error; a failing
`GetELRewardForBlock` after a successful block-number fetch fails the
sub-task; an epoch whose single slot hits a non-semantic
`ExecutionBlockNumber` error makes the whole fetch fail. -/
theorem elSubTask_cases_witness :
    (∃ m', elSubTask 0 7 (fun _ => .blockNotFound) (fun _ => none) (fun _ => none)
        = .ok m' ∧
      (∃ e', m' 7 = some e' ∧
        e'.proposalsMissed
          = u64add (((fun _ => none : RewardsMap) 7).getD {}).proposalsMissed 1 ∧
        e'.txFeeRewardWei = (((fun _ => none : RewardsMap) 7).getD {}).txFeeRewardWei) ∧
      ∀ j, j ≠ 7 → m' j = (fun _ => none : RewardsMap) j) ∧
    elSubTask 0 7 (fun _ => .ok 5) (fun _ => none) (fun _ => none)
      = .error (.elRewardError 0) ∧
    (∃ e, GetRewardsForEpoch 0
        ⟨[(0, 7)], fun _ => .otherError, fun _ => none,
         fun _ => .slotPreSyncCommittees, fun _ => none, none⟩ = .error e) :=
  ⟨(elSubTask_cases 0 7 (fun _ => .blockNotFound) (fun _ => none) (fun _ => none)).1 rfl,
   (elSubTask_cases 0 7 (fun _ => .ok 5) (fun _ => none) (fun _ => none)).2.2.2.1 5 rfl rfl,
   (elSubTask_cases 0 7 (fun _ => .blockNotFound) (fun _ => none) (fun _ => none)).2.2.2.2 0
    ⟨[(0, 7)], fun _ => .otherError, fun _ => none,
     fun _ => .slotPreSyncCommittees, fun _ => none, none⟩
    ⟨0, by simp [epochSlots], Or.inl rfl⟩⟩

theorem attRowEntry_fields (e : ValidatorEpochIncome) (row : AttRow) :
    (attRowEntry e row).attestationHeadReward = row.head.toNat ∧
    (attRowEntry e row).finalityDelayPenalty = (-row.inclusionDelay).toNat ∧
    (0 < row.source → (attRowEntry e row).attestationSourceReward = row.source.toNat) ∧
    (row.source ≤ 0 → (attRowEntry e row).attestationSourcePenalty = (-row.source).toNat) ∧
    (0 < row.target → (attRowEntry e row).attestationTargetReward = row.target.toNat) ∧
    (row.target ≤ 0 → (attRowEntry e row).attestationTargetPenalty = (-row.target).toNat) := by
  by_cases hs : 0 < row.source <;> by_cases ht : 0 < row.target <;>
    simp only [attRowEntry, hs, ht, if_true, if_false] <;>
    refine ⟨?_, ?_, ?_, ?_, ?_, ?_⟩ <;>
    first
      | trivial
      | (intro h; first | rfl | omega | trivial)

theorem processAttRows_error_of_bad :
    ∀ (rows : List AttRow), (∃ r ∈ rows, r.head < 0 ∨ 0 < r.inclusionDelay) →
      ∀ m, ∃ e, processAttRows rows m = .error e := by
  intro rows
  induction rows with
  | nil =>
    intro ⟨r, hr, _⟩
    simp at hr
  | cons row rest ih =>
    intro ⟨r, hr, hbad⟩ m
    by_cases hh : 0 ≤ row.head
    · by_cases hd : row.inclusionDelay ≤ 0
      · rcases List.mem_cons.mp hr with rfl | hr'
        · rcases hbad with hbad | hbad
          · omega
          · omega
        · obtain ⟨e, he⟩ := ih ⟨r, hr', hbad⟩
            (mapSet (ensureEntry m row.validatorIndex) row.validatorIndex
              (attRowEntry
                ((ensureEntry m row.validatorIndex row.validatorIndex).getD {}) row))
          refine ⟨e, ?_⟩
          simp only [processAttRows]
          rw [if_pos hh, if_pos hd]
          exact he
      · refine ⟨.positiveInclusionDelay row.validatorIndex, ?_⟩
        simp only [processAttRows]
        rw [if_pos hh, if_neg hd]
    · refine ⟨.negativeHeadReward row.validatorIndex, ?_⟩
      simp only [processAttRows]
      rw [if_neg hh]

theorem processAttRows_ok_of_good :
    ∀ (rows : List AttRow), (∀ r ∈ rows, 0 ≤ r.head ∧ r.inclusionDelay ≤ 0) →
      ∀ m, ∃ m', processAttRows rows m = .ok m' := by
  intro rows
  induction rows with
  | nil => intro _ m; exact ⟨m, rfl⟩
  | cons row rest ih =>
    intro hgood m
    obtain ⟨m', hm'⟩ := ih (fun r hr => hgood r (List.mem_cons_of_mem _ hr))
      (mapSet (ensureEntry m row.validatorIndex) row.validatorIndex
        (attRowEntry ((ensureEntry m row.validatorIndex row.validatorIndex).getD {}) row))
    refine ⟨m', ?_⟩
    simp only [processAttRows]
    rw [if_pos (hgood row (by simp)).1, if_pos (hgood row (by simp)).2]
    exact hm'

theorem processAttRows_preserve :
    ∀ (rows : List AttRow) (v : Nat), v ∉ rows.map AttRow.validatorIndex →
      ∀ m m', processAttRows rows m = .ok m' → m' v = m v := by
  intro rows
  induction rows with
  | nil =>
    intro v _ m m' h
    simp only [processAttRows] at h
    injection h with h
    rw [← h]
  | cons row rest ih =>
    intro v hv m m' h
    simp only [processAttRows] at h
    by_cases hh : 0 ≤ row.head
    · rw [if_pos hh] at h
      by_cases hd : row.inclusionDelay ≤ 0
      · rw [if_pos hd] at h
        have hv1 : v ∉ rest.map AttRow.validatorIndex := fun hx => hv (by simp [hx])
        have hvne : v ≠ row.validatorIndex := fun hx => hv (by simp [hx])
        rw [ih v hv1 _ m' h]
        rw [mapSet_other _ _ _ _ hvne, ensureEntry_other _ _ _ hvne]
      · rw [if_neg hd] at h
        simp at h
    · rw [if_neg hh] at h
      simp at h

theorem processAttRows_entry :
    ∀ (rows : List AttRow), (∀ r ∈ rows, 0 ≤ r.head ∧ r.inclusionDelay ≤ 0) →
      (rows.map AttRow.validatorIndex).Nodup →
      ∀ m m', processAttRows rows m = .ok m' →
        ∀ r ∈ rows, ∃ e', m' r.validatorIndex = some e' ∧
          e'.attestationHeadReward = r.head.toNat ∧
          e'.finalityDelayPenalty = (-r.inclusionDelay).toNat ∧
          (0 < r.source → e'.attestationSourceReward = r.source.toNat) ∧
          (r.source ≤ 0 → e'.attestationSourcePenalty = (-r.source).toNat) ∧
          (0 < r.target → e'.attestationTargetReward = r.target.toNat) ∧
          (r.target ≤ 0 → e'.attestationTargetPenalty = (-r.target).toNat) := by
  intro rows
  induction rows with
  | nil =>
    intro _ _ m m' _ r hr
    simp at hr
  | cons row rest ih =>
    intro hgood hnodup m m' h r hr
    simp only [processAttRows] at h
    rw [if_pos (hgood row (by simp)).1, if_pos (hgood row (by simp)).2] at h
    rw [List.map_cons, List.nodup_cons] at hnodup
    rcases List.mem_cons.mp hr with rfl | hr'
    · have hpres := processAttRows_preserve rest r.validatorIndex hnodup.1 _ m' h
      rw [hpres, mapSet_self]
      exact ⟨attRowEntry ((ensureEntry m r.validatorIndex r.validatorIndex).getD {}) r,
        rfl, attRowEntry_fields _ r⟩
    · exact ih (fun x hx => hgood x (List.mem_cons_of_mem _ hx))
        hnodup.2 _ m' h r hr'

/-- C7: in the attestation task — (i) if any per-validator entry carries a
negative head reward or a strictly positive inclusion delay, the whole
epoch fetch returns an error and no result map; (ii) otherwise the task
succeeds, and (for the upstream's one-row-per-validator responses) each
validator's entry is assigned `FinalityDelayPenalty = |inclusion_delay|`,
the head reward, and source/target to the reward field when positive and
to the penalty field as a magnitude when not. -/
theorem attestation_contract (epoch : Nat) (inp : EpochInputs) (rows : List AttRow) :
    (inp.attestations = some rows →
      (∃ r ∈ rows, r.head < 0 ∨ 0 < r.inclusionDelay) →
      ∃ e, GetRewardsForEpoch epoch inp = .error e) ∧
    ((∀ r ∈ rows, 0 ≤ r.head ∧ r.inclusionDelay ≤ 0) →
      (rows.map AttRow.validatorIndex).Nodup →
      ∀ m, ∃ m', processAttRows rows m = .ok m' ∧
        ∀ r ∈ rows, ∃ e', m' r.validatorIndex = some e' ∧
          e'.attestationHeadReward = r.head.toNat ∧
          e'.finalityDelayPenalty = (-r.inclusionDelay).toNat ∧
          (0 < r.source → e'.attestationSourceReward = r.source.toNat) ∧
          (r.source ≤ 0 → e'.attestationSourcePenalty = (-r.source).toNat) ∧
          (0 < r.target → e'.attestationTargetReward = r.target.toNat) ∧
          (r.target ≤ 0 → e'.attestationTargetPenalty = (-r.target).toNat)) := by
  constructor
  · intro hatt hbad
    cases hps : processSlots inp (epochSlots epoch inp) (fun _ => none) with
    | error e =>
      refine ⟨e, ?_⟩
      unfold GetRewardsForEpoch
      rw [hps]
    | ok m0 =>
      obtain ⟨e, he⟩ := processAttRows_error_of_bad rows hbad m0
      refine ⟨e, ?_⟩
      unfold GetRewardsForEpoch
      rw [hps]
      dsimp only
      rw [hatt]
      exact he
  · intro hgood hnodup m
    obtain ⟨m', hm'⟩ := processAttRows_ok_of_good rows hgood m
    exact ⟨m', hm', processAttRows_entry rows hgood hnodup m m' hm'⟩

/-- C7 witness: a fetch whose attestation response carries a negative head
reward fails; a good single-row response assigns the fields of validator
`7` from the row `(head 1, source 2, target −3, inclusion_delay −4)`. -/
theorem attestation_contract_witness :
    (∃ e, GetRewardsForEpoch 0
        ⟨[], fun _ => .slotPreMerge, fun _ => none, fun _ => .slotPreSyncCommittees,
         fun _ => none, some [⟨1, -5, 0, 0, 0⟩]⟩ = .error e) ∧
    (∃ m', processAttRows [⟨7, 1, 2, -3, -4⟩] (fun _ => none) = .ok m' ∧
      ∀ r ∈ [(⟨7, 1, 2, -3, -4⟩ : AttRow)], ∃ e', m' r.validatorIndex = some e' ∧
        e'.attestationHeadReward = r.head.toNat ∧
        e'.finalityDelayPenalty = (-r.inclusionDelay).toNat ∧
        (0 < r.source → e'.attestationSourceReward = r.source.toNat) ∧
        (r.source ≤ 0 → e'.attestationSourcePenalty = (-r.source).toNat) ∧
        (0 < r.target → e'.attestationTargetReward = r.target.toNat) ∧
        (r.target ≤ 0 → e'.attestationTargetPenalty = (-r.target).toNat)) :=
  ⟨(attestation_contract 0
      ⟨[], fun _ => .slotPreMerge, fun _ => none, fun _ => .slotPreSyncCommittees,
       fun _ => none, some [⟨1, -5, 0, 0, 0⟩]⟩ [⟨1, -5, 0, 0, 0⟩]).1 rfl
    ⟨⟨1, -5, 0, 0, 0⟩, by simp, Or.inl (by norm_num)⟩,
   (attestation_contract 0
      ⟨[], fun _ => .slotPreMerge, fun _ => none, fun _ => .slotPreSyncCommittees,
       fun _ => none, some [⟨1, -5, 0, 0, 0⟩]⟩ [⟨7, 1, 2, -3, -4⟩]).2
    (by intro r hr; simp at hr; subst hr; constructor <;> norm_num)
    (by simp) (fun _ => none)⟩

end BeaconRewards
